import Mathlib

/-!
Verification of the Smart Growth Chamber dashboard's data pipeline
(`streamlit_app_thingspeak.py`): feed-client request construction,
series normalization, label resolution, latest-value extraction,
mean resampling, threshold classification and the linear trend
projection.

Modelling conventions (shallow embedding):
* Timestamps are integers (minutes; the epoch 0 stands for midnight
  of the first day, so bucket alignment at multiples of the bucket
  width matches pandas's default `origin="start_day"`). A time zone
  is an arbitrary instant → local wall-clock map `toLocal : ℤ → ℤ`;
  nothing assumes it is monotone, since a DST-observing zone is not
  monotone across a fall-back transition.
* Numeric field values are rationals.
* pandas's per-cell parsers (`pd.to_datetime(..., errors="coerce")`
  for the timestamp string, `pd.to_numeric(..., errors="coerce")`
  for field strings) are abstracted as the `Option` values carried by
  a raw record: `none` is a cell whose string failed to parse (or was
  empty), `some v` a successfully parsed cell.
* A missing value (pandas `NaN`) is `Option.none`; `dropna` is the
  obvious filter.
* A DataFrame is a `Table`: a list of rows plus the set of `fieldN`
  columns it actually has (pandas only creates a column when the
  fetched JSON rows mention that key).
-/

namespace SGC

/-- One raw feed record as delivered by the remote API, with the
pandas parse results already applied cell-wise: `created_at` is the
UTC parse of the timestamp string (`none` when unparseable), and
`fields i` the numeric parse of slot `i`'s string (`none` when the
string is missing, empty or non-numeric). -/
structure RawRecord where
  created_at : Option ℤ
  fields : Fin 8 → Option ℚ

/-- One row of the normalized time-indexed table: a local naive
timestamp and the eight optional field values. -/
structure Row where
  ts : ℤ
  fields : Fin 8 → Option ℚ

/-- A normalized DataFrame: its rows plus which `fieldN` columns
exist (`cols i = true` when column `field(i+1)` is present). -/
structure Table where
  cols : Fin 8 → Bool
  rows : List Row

/-- An instant-stamped record after timestamp parsing: the absolute
UTC instant and the per-field numeric parse results. -/
abbrev Parsed := ℤ × (Fin 8 → Option ℚ)

/-- Ordered insertion of a parsed record into a list sorted by
absolute instant (helper for `sort_index`). -/
def insertInstant (p : Parsed) : List Parsed → List Parsed
  | [] => [p]
  | q :: l => if p.1 ≤ q.1 then p :: q :: l else q :: insertInstant p l

/-- `df.sort_index()` on the tz-aware `created_at_local` index
(line 131): tz-aware datetimes compare by absolute instant, so this
sorts the rows ascending by UTC instant. Insertion sort — the claims
do not depend on the tie-breaking order pandas uses, only on
sortedness and on the multiset of rows. -/
def sort_index : List Parsed → List Parsed
  | [] => []
  | p :: l => insertInstant p (sort_index l)

/-- The normalization stage of `fetch_thingspeak` (lines 123-137):
parse timestamps as UTC dropping unparseable rows
(`to_datetime(..., utc=True, errors="coerce")` + `dropna`), convert
to the target zone (`tz_convert`), set the tz-aware local column as
the index and sort it — tz-aware values order by absolute instant —
then strip the zone annotation (`tz_localize(None)`), leaving each
row its local wall-clock reading `toLocal t`. The zone's
instant → wall-clock map `toLocal` is an arbitrary function: for a
DST-observing zone it is not monotone across a fall-back transition.
Field cells are already numeric on the `RawRecord`. -/
def normalize (toLocal : ℤ → ℤ) (recs : List RawRecord) : List Row :=
  (sort_index (recs.filterMap fun r =>
    r.created_at.map fun t => ((t, r.fields) : Parsed))).map
      fun p => Row.mk (toLocal p.1) p.2

/-- The absolute instants of the normalized rows in table order: the
index right after `sort_index()` (line 131), before `tz_localize`
strips the zone. -/
def instantIndex (recs : List RawRecord) : List ℤ :=
  (sort_index (recs.filterMap fun r =>
    r.created_at.map fun t => ((t, r.fields) : Parsed))).map Prod.fst

/-- `latest_value(df, field)` (lines 149-157): `(None, None)` when the
table is empty or the column is absent; otherwise the last row (in
index order) whose cell for `field` is non-missing, returned as
(value, timestamp); `(None, None)` when every cell is missing. -/
def latest_value (df : Table) (field : Fin 8) : Option ℚ × Option ℤ :=
  if df.rows.isEmpty ∨ ¬ df.cols field then (none, none)
  else
    match (df.rows.filter fun r => (r.fields field).isSome).getLast? with
    | none => (none, none)
    | some r => (r.fields field, some r.ts)

/-- The values contributing to bucket `k` of the `minutes`-wide
resampling of column `field`: the non-missing cells of the rows whose
timestamp `t` satisfies `t.ediv minutes = k` (i.e. falls in
`[k*minutes, (k+1)*minutes)`). -/
def bucketVals (df : Table) (field : Fin 8) (minutes : ℕ) (k : ℤ) : List ℚ :=
  df.rows.filterMap fun r =>
    if r.ts / (minutes : ℤ) = k then r.fields field else none

/-- The mean over bucket `k`: `none` when no reading contributes
(pandas `mean()` of an empty bucket is `NaN`, i.e. missing). -/
def bucketMean (df : Table) (field : Fin 8) (minutes : ℕ) (k : ℤ) : Option ℚ :=
  let l := bucketVals df field minutes k
  if l.isEmpty then none else some (l.sum / (l.length : ℚ))

/-- `resample_series(df, field, minutes)` (lines 159-162):
`df[field].resample(f"{minutes}T", label="right").mean()`.
Empty series when the table is empty or the column absent; otherwise
one entry per bucket from the bucket of the earliest timestamp to the
bucket of the latest, labelled by the bucket's right (closing)
boundary, valued by the bucket mean (`none` = `NaN` for a bucket with
no contributing reading). -/
def resample_series (df : Table) (field : Fin 8) (minutes : ℕ) :
    List (ℤ × Option ℚ) :=
  if df.rows.isEmpty ∨ ¬ df.cols field then []
  else
    let ks := df.rows.map fun r => r.ts / (minutes : ℤ)
    let kmin := ks.foldl min ks.headI
    let kmax := ks.foldl max ks.headI
    (List.range (kmax - kmin + 1).toNat).map fun j =>
      let k := kmin + (j : ℤ)
      ((k + 1) * (minutes : ℤ), bucketMean df field minutes k)

/-- The four metric keys of `LIMITS_MAIN` (the summary cards). -/
inductive MetricKey where
  | soil_moist
  | air_temp
  | air_hum
  | soil_ph
deriving DecidableEq

/-- `LIMITS_MAIN` (lines 16-21): the fixed inclusive threshold band
per summary metric. -/
def LIMITS_MAIN : MetricKey → ℚ × ℚ
  | .soil_moist => (25, 50)
  | .air_temp => (20, 30)
  | .air_hum => (40, 60)
  | .soil_ph => (11/2, 34/5)

/-- `_in_range(val, lo_hi)` (lines 23-25):
`(val is not None) and (lo <= val <= hi)`. -/
def _in_range (val : Option ℚ) (lo_hi : ℚ × ℚ) : Bool :=
  match val with
  | none => false
  | some v => decide (lo_hi.1 ≤ v) && decide (v ≤ lo_hi.2)

/-- `_bg_for_main(metric_key, value)` (lines 27-33): grey when the
value is missing, red when present and out of the metric's band,
grey otherwise. -/
def _bg_for_main (metric_key : MetricKey) (value : Option ℚ) : String :=
  match value with
  | none => "#3F4F61"
  | some _ =>
      if ! _in_range value (LIMITS_MAIN metric_key) then "red" else "#3F4F61"

/-- Python `\s` on the ASCII range: space, tab, newline, carriage
return, form feed, vertical tab (the characters `re.sub(r'\s+', ...)`
collapses). -/
def isPySpace (c : Char) : Bool :=
  c = ' ' || c = '\t' || c = '\n' || c = '\r' || c = '\x0b' || c = '\x0c'

/-- `re.sub(r'\s+', ' ', s)` on a character list: each maximal run of
whitespace becomes a single space. -/
def collapseWS : List Char → List Char
  | [] => []
  | [c] => [if isPySpace c then ' ' else c]
  | c :: d :: l =>
      if isPySpace c && isPySpace d then collapseWS (d :: l)
      else (if isPySpace c then ' ' else c) :: collapseWS (d :: l)

/-- Python `str.strip()`: drop leading and trailing whitespace. -/
def stripWS (l : List Char) : List Char :=
  ((l.dropWhile isPySpace).reverse.dropWhile isPySpace).reverse

/-- `_clean(s)` (lines 93-96): `""` for the empty string, otherwise
`re.sub(r'\s+', ' ', s).strip()`. -/
def _clean (s : String) : String :=
  if s = "" then "" else String.mk (stripWS (collapseWS s.data))

/-- `label_map_from_meta(meta)` (lines 141-147) at slot `i` (0-based;
the source iterates `i` over `1..8`): clean the metadata label for
key `field(i+1)` and fall back to the key itself when the cleaned
label is empty (Python's `_clean(meta.get(key, "")) or key`). The
metadata dictionary is modelled as a partial map from keys to label
strings. -/
def label_map_from_meta (meta : String → Option String) (i : Fin 8) : String :=
  let key := "field" ++ toString (i.val + 1)
  let name := _clean ((meta key).getD "")
  if name = "" then key else name

/-- `MAX_POINTS` (line 13). -/
def MAX_POINTS : ℕ := 8000

/-- The query parameters of the feed request: time zone, optional
`start`/`end` date-time strings, optional `results` count, optional
`api_key`. The `end` parameter is named `stop` (`end` is reserved). -/
structure FetchParams where
  timezone : String
  start : Option String
  stop : Option String
  results : Option ℕ
  api_key : Option String
deriving DecidableEq

/-- The parameter-building part of `fetch_thingspeak` (lines 102-110):
`start`/`end` carry the given dates at `00:00:00` and `23:59:59` in
range mode, `results` carries `max_points` otherwise, and `api_key`
is present only for a truthy (non-empty) key. Dates are modelled by
their ISO rendering (Python's `f"{start_date} 00:00:00"` formats a
`date` as `YYYY-MM-DD`). -/
def fetch_params (timezone : String) (use_range : Bool)
    (start_date end_date : String) (max_points : ℕ)
    (read_key : Option String) : FetchParams :=
  { timezone := timezone
    start := if use_range then some (start_date ++ " 00:00:00") else none
    stop := if use_range then some (end_date ++ " 23:59:59") else none
    results := if use_range then none else some max_points
    api_key :=
      match read_key with
      | some k => if k = "" then none else some k
      | none => none }

/-- Column index of `field5` (the slope field of the trend model). -/
def slopeField : Fin 8 := 4

/-- Column index of `field6` (the intercept field of the trend model). -/
def interceptField : Fin 8 := 5

/-- Column index of `field1` (air temperature on the environmental
channel). -/
def tempField : Fin 8 := 0

/-- `latest_lin_params(df_env)` (lines 191-205): the last non-missing
entries of `field5` (slope) and `field6` (intercept); `(None, None)`
as soon as either is unavailable. -/
def latest_lin_params (df_env : Table) : Option ℚ × Option ℚ :=
  let m : Option ℚ :=
    if ¬ df_env.rows.isEmpty ∧ df_env.cols slopeField then
      (df_env.rows.filterMap fun r => r.fields slopeField).getLast?
    else none
  let b : Option ℚ :=
    if ¬ df_env.rows.isEmpty ∧ df_env.cols interceptField then
      (df_env.rows.filterMap fun r => r.fields interceptField).getLast?
    else none
  if m = none ∨ b = none then (none, none) else (m, b)

/-- The working series of the trend plot (line 259):
`resample_series(df_env, "field1", res_min).dropna()`, as
(timestamp, value) pairs. -/
def workingSeries (df_env : Table) (res_min : ℕ) : List (ℤ × ℚ) :=
  (resample_series df_env tempField res_min).filterMap fun p =>
    (p.2).map fun v => (p.1, v)

/-- The anchor window's timestamps (line 284): `series.index[-n:]`
with `n = min(30, len(series))`. -/
def anchorIdx (df_env : Table) (res_min : ℕ) : List ℤ :=
  let s := workingSeries df_env res_min
  let n := min 30 s.length
  (s.drop (s.length - n)).map Prod.fst

/-- The projection's step (line 292): the gap between the anchor
window's first two timestamps, or the bucket width when the window
has fewer than two points
(`(idx[1] - idx[0]) if len(idx) > 1 else pd.Timedelta(minutes=res_min)`). -/
def stepOf (df_env : Table) (res_min : ℕ) : ℤ :=
  match anchorIdx df_env res_min with
  | a :: b :: _ => b - a
  | _ => (res_min : ℤ)

/-- The trend-projection block of `plot_air_temp_with_trend`
(lines 279-302): with the latest model `(m, b)` and a non-empty
working series, `n = min(30, len(series))` anchor points,
`x = range(n + 100)`, `yhat = [m*xi + b for xi in x]`, and
`idx_ext = date_range(start=idx[0], periods=len(x), freq=freq)`;
`none` when the model is incomplete or the series empty (no trend
trace is added). -/
def trendProjection (df_env : Table) (res_min : ℕ) :
    Option (List ℚ × List ℤ) :=
  match latest_lin_params df_env with
  | (some m, some b) =>
      let s := workingSeries df_env res_min
      if s.isEmpty then none
      else
        let n := min 30 s.length
        let steps_future := 100
        let x := List.range (n + steps_future)
        let yhat := x.map fun xi : ℕ => m * (xi : ℚ) + b
        let idx_ext := (List.range x.length).map fun i : ℕ =>
          (anchorIdx df_env res_min).headI + (i : ℤ) * stepOf df_env res_min
        some (yhat, idx_ext)
  | _ => none

/-! ## Sorting lemmas -/

theorem perm_insertInstant (p : Parsed) (l : List Parsed) :
    List.Perm (insertInstant p l) (p :: l) := by
  induction l with
  | nil => simp [insertInstant]
  | cons q t ih =>
    simp only [insertInstant]
    by_cases h : p.1 ≤ q.1
    · rw [if_pos h]
    · rw [if_neg h]
      exact (ih.cons q).trans (List.Perm.swap p q t)

theorem perm_sort_index (l : List Parsed) : List.Perm (sort_index l) l := by
  induction l with
  | nil => simp [sort_index]
  | cons p t ih => exact (perm_insertInstant p (sort_index t)).trans (ih.cons p)

theorem pairwise_insertInstant (p : Parsed) (l : List Parsed)
    (h : List.Pairwise (fun a b : Parsed => a.1 ≤ b.1) l) :
    List.Pairwise (fun a b : Parsed => a.1 ≤ b.1) (insertInstant p l) := by
  induction l with
  | nil => simp [insertInstant]
  | cons q t ih =>
    rcases List.pairwise_cons.mp h with ⟨hq, ht⟩
    simp only [insertInstant]
    by_cases hpq : p.1 ≤ q.1
    · rw [if_pos hpq]
      refine List.pairwise_cons.mpr ⟨?_, h⟩
      intro x hx
      rcases List.mem_cons.mp hx with rfl | hx
      · exact hpq
      · exact le_trans hpq (hq x hx)
    · rw [if_neg hpq]
      refine List.pairwise_cons.mpr ⟨?_, ih ht⟩
      intro x hx
      rcases List.mem_cons.mp ((perm_insertInstant p t).mem_iff.mp hx) with rfl | hx
      · exact le_of_not_le hpq
      · exact hq x hx

theorem sorted_sort_index (l : List Parsed) :
    List.Pairwise (fun a b : Parsed => a.1 ≤ b.1) (sort_index l) := by
  induction l with
  | nil => simp [sort_index]
  | cons p t ih => exact pairwise_insertInstant p (sort_index t) ih

/-! ## C3: the normalized index -/

/-- Two raw records carrying the same parseable timestamp. -/
def dupRecs : List RawRecord :=
  [⟨some 5, fun _ => none⟩, ⟨some 5, fun _ => none⟩]

/-- A DST fall-back conversion: instants before minute 420 (07:00
UTC) read the local clock at offset −300 (UTC-5), later instants at
offset −360 (UTC-6) — as in America/Chicago on 2024-11-03, where
06:30 UTC is 01:30 local but the later 07:15 UTC is 01:15 local. -/
def fallBack : ℤ → ℤ := fun t => if t < 420 then t - 300 else t - 360

/-- Two records straddling the fall-back transition: instants 06:30
UTC and 07:15 UTC. -/
def dstRecs : List RawRecord :=
  [⟨some 390, fun _ => none⟩, ⟨some 435, fun _ => none⟩]

/-- C3 counterexample: two failures of the claimed strictly
increasing local index. Two same-instant records are both kept,
giving the index `[5, 5]`; and across a DST fall-back the
instant-sorted rows carry the local wall times `[90, 75]`
(01:30 then 01:15), so the naive local index is not even
non-decreasing. -/
theorem normalize_index_cex :
    ((normalize (fun t => t) dupRecs).map Row.ts = [5, 5] ∧
      ¬ List.Pairwise (fun a b : ℤ => a < b)
          ((normalize (fun t => t) dupRecs).map Row.ts)) ∧
    ((normalize fallBack dstRecs).map Row.ts = [90, 75] ∧
      ¬ List.Pairwise (fun a b : ℤ => a ≤ b)
          ((normalize fallBack dstRecs).map Row.ts)) := by
  refine ⟨⟨by decide, ?_⟩, ⟨by decide, ?_⟩⟩
  · intro h
    rw [show (normalize (fun t => t) dupRecs).map Row.ts = [5, 5] from by decide] at h
    rcases List.pairwise_cons.mp h with ⟨h5, _⟩
    exact absurd (h5 5 (by simp)) (by simp)
  · intro h
    rw [show (normalize fallBack dstRecs).map Row.ts = [90, 75] from by decide] at h
    rcases List.pairwise_cons.mp h with ⟨h90, _⟩
    exact absurd (h90 75 (by simp)) (by norm_num)

/-- C3 (amended): after normalization the rows are sorted ascending
by absolute instant, with all same-instant records retained (the
normalized table is a permutation of the parseable records, nothing
is merged); the naive local index is the image of that instant-sorted
sequence under the zone's instant → wall-clock map, hence
non-decreasing whenever that map is monotone — but it may repeat at
ties, and across a DST fall-back it may decrease. -/
theorem normalize_sorted (toLocal : ℤ → ℤ) (recs : List RawRecord) :
    List.Sorted (· ≤ ·) (instantIndex recs) ∧
    (normalize toLocal recs).map Row.ts = (instantIndex recs).map toLocal ∧
    List.Perm (normalize toLocal recs)
      (recs.filterMap fun r => r.created_at.map fun t => Row.mk (toLocal t) r.fields) ∧
    (Monotone toLocal →
      List.Sorted (· ≤ ·) ((normalize toLocal recs).map Row.ts)) := by
  have hsorted : List.Pairwise (fun a b : Parsed => a.1 ≤ b.1)
      (sort_index (recs.filterMap fun r =>
        r.created_at.map fun t => ((t, r.fields) : Parsed))) :=
    sorted_sort_index _
  refine ⟨?_, ?_, ?_, ?_⟩
  · exact List.pairwise_map.mpr hsorted
  · unfold normalize instantIndex
    rw [List.map_map, List.map_map]
    rfl
  · have hmap : (recs.filterMap fun r =>
          r.created_at.map fun t => ((t, r.fields) : Parsed)).map
            (fun p : Parsed => Row.mk (toLocal p.1) p.2)
        = recs.filterMap fun r =>
            r.created_at.map fun t => Row.mk (toLocal t) r.fields := by
      rw [List.map_filterMap]
      refine List.filterMap_congr fun r _ => ?_
      cases r.created_at <;> rfl
    unfold normalize
    rw [← hmap]
    exact (perm_sort_index _).map _
  · intro hmono
    unfold normalize
    rw [List.map_map]
    exact List.pairwise_map.mpr (hsorted.imp fun hab => hmono hab)

/-- Field contents of the C8/C3 witness record. -/
def w8Fields : Fin 8 → Option ℚ := fun i => if i = 0 then some 21 else none

/-- Witness input records: one parseable timestamp, one
unparseable. -/
def w8Recs : List RawRecord := [⟨some 3, w8Fields⟩, ⟨none, fun _ => none⟩]

/-- C3 witness: the fixed-offset conversion `+60` is monotone, and
under it the local index of the witness records is sorted. -/
theorem normalize_sorted_witness :
    Monotone (fun t : ℤ => t + 60) ∧
    List.Sorted (· ≤ ·) ((normalize (fun t : ℤ => t + 60) w8Recs).map Row.ts) := by
  have hmono : Monotone (fun t : ℤ => t + 60) := fun a b hab => by simpa using hab
  exact ⟨hmono, (normalize_sorted (fun t : ℤ => t + 60) w8Recs).2.2.2 hmono⟩

/-! ## C8: normalization granularity -/

theorem length_filterMap_rows (recs : List RawRecord) :
    (recs.filterMap fun r =>
        r.created_at.map fun t => ((t, r.fields) : Parsed)).length
      = recs.countP fun r => r.created_at.isSome := by
  induction recs with
  | nil => rfl
  | cons r t ih =>
    cases h : r.created_at with
    | none => simp [List.filterMap_cons, h, List.countP_cons, ih]
    | some v => simp [List.filterMap_cons, h, List.countP_cons, ih]

/-- C8: a record with an unparseable timestamp is dropped whole (the
normalized row count plus the number of unparseable rows is the input
count), while every record with a parseable timestamp survives with
all its per-field parse results untouched — a missing field value
never discards the record or any other field. Holds for every
instant → local conversion `toLocal`. -/
theorem normalize_granularity (toLocal : ℤ → ℤ) (recs : List RawRecord) :
    (normalize toLocal recs).length + (recs.countP fun r => r.created_at.isNone)
        = recs.length ∧
    ∀ r ∈ recs, ∀ t, r.created_at = some t →
      ∃ q ∈ normalize toLocal recs, q.ts = toLocal t ∧ q.fields = r.fields := by
  constructor
  · have hlen : (normalize toLocal recs).length
        = (recs.filterMap fun r =>
            r.created_at.map fun t => ((t, r.fields) : Parsed)).length := by
      unfold normalize
      rw [List.length_map]
      exact (perm_sort_index _).length_eq
    have hsplit := List.length_eq_countP_add_countP
      (fun r : RawRecord => r.created_at.isSome) recs
    have hnone : (recs.countP fun r : RawRecord => decide ¬(r.created_at.isSome = true))
        = recs.countP fun r => r.created_at.isNone := by
      refine List.countP_congr fun r _ => ?_
      cases r.created_at <;> simp
    rw [hlen, length_filterMap_rows, ← hnone]
    omega
  · intro r hr t ht
    refine ⟨⟨toLocal t, r.fields⟩, ?_, rfl, rfl⟩
    have hmem : ((t, r.fields) : Parsed)
        ∈ recs.filterMap fun r => r.created_at.map fun t => ((t, r.fields) : Parsed) :=
      List.mem_filterMap.mpr ⟨r, hr, by rw [ht]; rfl⟩
    have hsort : ((t, r.fields) : Parsed) ∈ sort_index (recs.filterMap fun r =>
        r.created_at.map fun t => ((t, r.fields) : Parsed)) :=
      (perm_sort_index _).mem_iff.mpr hmem
    unfold normalize
    exact List.mem_map.mpr ⟨(t, r.fields), hsort, rfl⟩

/-- C8 witness: on a two-record input with one unparseable timestamp,
the normalized table has one row (1 + 1 = 2) and the parseable record
survives with its fields intact at local time `3 + 60`. -/
theorem normalize_granularity_witness :
    (normalize (fun t : ℤ => t + 60) w8Recs).length
        + (w8Recs.countP fun r => r.created_at.isNone) = 2 ∧
    ∃ q ∈ normalize (fun t : ℤ => t + 60) w8Recs,
      q.ts = 3 + 60 ∧ q.fields = w8Fields := by
  refine ⟨(normalize_granularity (fun t : ℤ => t + 60) w8Recs).1, ?_⟩
  exact (normalize_granularity (fun t : ℤ => t + 60) w8Recs).2
    ⟨some 3, w8Fields⟩ (by simp [w8Recs]) 3 rfl

/-! ## Last-entry lemmas -/

theorem getLast?_filter_decomp (p : Row → Bool) (l : List Row) (r : Row)
    (h : (l.filter p).getLast? = some r) :
    ∃ l₁ l₂, l = l₁ ++ r :: l₂ ∧ p r = true ∧ ∀ x ∈ l₂, p x = false := by
  induction l using List.reverseRecOn with
  | nil => simp at h
  | append_singleton t a ih =>
    rw [List.filter_append] at h
    by_cases hp : p a
    · have ha : List.filter p [a] = [a] := by simp [hp]
      rw [ha, List.getLast?_concat] at h
      obtain rfl := Option.some.inj h
      exact ⟨t, [], rfl, hp, by simp⟩
    · have ha : List.filter p [a] = [] := by simp [hp]
      rw [ha, List.append_nil] at h
      obtain ⟨l₁, l₂, rfl, hpr, hl₂⟩ := ih h
      refine ⟨l₁, l₂ ++ [a], by simp, hpr, fun x hx => ?_⟩
      rcases List.mem_append.mp hx with hx | hx
      · exact hl₂ x hx
      · rw [List.mem_singleton.mp hx]
        exact Bool.eq_false_iff.mpr hp

theorem getLast?_filterMap_fields (l : List Row) (field : Fin 8) :
    (l.filterMap fun r => r.fields field).getLast?
      = ((l.filter fun r => (r.fields field).isSome).getLast?).bind
          fun r => r.fields field := by
  induction l using List.reverseRecOn with
  | nil => rfl
  | append_singleton t a ih =>
    rw [List.filterMap_append, List.filter_append]
    cases ha : a.fields field with
    | none =>
      have h1 : List.filterMap (fun r => r.fields field) [a] = [] := by
        simp [List.filterMap, ha]
      have h2 : List.filter (fun r => (r.fields field).isSome) [a] = [] := by
        simp [ha]
      rw [h1, h2, List.append_nil, List.append_nil, ih]
    | some v =>
      have h1 : List.filterMap (fun r => r.fields field) [a] = [v] := by
        simp [List.filterMap, ha]
      have h2 : List.filter (fun r => (r.fields field).isSome) [a] = [a] := by
        simp [ha]
      rw [h1, h2, List.getLast?_concat, List.getLast?_concat]
      simp [ha]

/-! ## C5: latest value -/

/-- C5: `latest_value` returns `(None, None)` exactly when the table
is empty, the column is absent, or every entry of the column is
missing; a `(some v, some t)` result is the last non-missing entry of
the column (nothing after it in index order is non-missing) together
with that entry's own timestamp. -/
theorem latest_value_spec (df : Table) (field : Fin 8) :
    (latest_value df field = (none, none) ↔
      df.rows = [] ∨ df.cols field = false ∨ ∀ r ∈ df.rows, r.fields field = none) ∧
    (∀ v t, latest_value df field = (some v, some t) →
      ∃ l₁ r l₂, df.rows = l₁ ++ r :: l₂ ∧ r.fields field = some v ∧ r.ts = t ∧
        ∀ x ∈ l₂, x.fields field = none) := by
  by_cases hcond : df.rows.isEmpty ∨ ¬ df.cols field
  · have hlv : latest_value df field = (none, none) := by
      unfold latest_value
      rw [if_pos hcond]
    constructor
    · rw [hlv]
      simp only [true_iff]
      rcases hcond with hc | hc
      · exact Or.inl (List.isEmpty_iff.mp hc)
      · exact Or.inr (Or.inl (Bool.eq_false_iff.mpr hc))
    · intro v t h
      rw [hlv] at h
      exact absurd (congrArg Prod.fst h) (by simp)
  · cases hlast : (df.rows.filter fun r => (r.fields field).isSome).getLast? with
    | none =>
      have hlv : latest_value df field = (none, none) := by
        unfold latest_value
        rw [if_neg hcond, hlast]
      have hnil : (df.rows.filter fun r => (r.fields field).isSome) = [] :=
        List.getLast?_eq_none_iff.mp hlast
      constructor
      · rw [hlv]
        simp only [true_iff]
        refine Or.inr (Or.inr fun r hr => ?_)
        have := List.filter_eq_nil_iff.mp hnil r hr
        exact Option.not_isSome_iff_eq_none.mp (by simpa using this)
      · intro v t h
        rw [hlv] at h
        exact absurd (congrArg Prod.fst h) (by simp)
    | some r =>
      have hsome : (r.fields field).isSome := by
        obtain ⟨_, _, _, hp, _⟩ := getLast?_filter_decomp _ _ _ hlast
        simpa using hp
      obtain ⟨v₀, hv₀⟩ := Option.isSome_iff_exists.mp hsome
      have hlv : latest_value df field = (r.fields field, some r.ts) := by
        unfold latest_value
        rw [if_neg hcond, hlast]
      push_neg at hcond
      constructor
      · rw [hlv]
        constructor
        · intro h
          exact absurd (congrArg Prod.fst h) (by simp [hv₀])
        · intro h
          rcases h with h | h | h
          · exact absurd h (by simpa [List.isEmpty_iff] using hcond.1)
          · exact absurd h (by simp [hcond.2])
          · have hrm : r ∈ df.rows := by
              obtain ⟨l₁, l₂, hdec, _, _⟩ := getLast?_filter_decomp _ _ _ hlast
              rw [hdec]
              simp
            exact absurd (h r hrm) (by simp [hv₀])
      · intro v t h
        rw [hlv] at h
        have h1 : r.fields field = some v := congrArg Prod.fst h
        have h2 : r.ts = t := Option.some.inj (congrArg Prod.snd h)
        obtain ⟨l₁, l₂, hdec, _, hafter⟩ := getLast?_filter_decomp _ _ _ hlast
        refine ⟨l₁, r, l₂, hdec, h1, h2, fun x hx => ?_⟩
        have := hafter x hx
        exact Option.not_isSome_iff_eq_none.mp (by simpa using this)

/-- Field contents of the C5/C4 witness rows: only `field2`
(0-based slot 1) is populated. -/
def c4Fields (v : Option ℚ) : Fin 8 → Option ℚ := fun i =>
  if i = 1 then v else none

/-- The spec's resampling scenario table: `field2` readings
`[30, missing, 40]` one minute apart. -/
def cDf4 : Table :=
  { cols := fun i => decide (i = (1 : Fin 8))
    rows := [⟨0, c4Fields (some 30)⟩, ⟨1, c4Fields none⟩, ⟨2, c4Fields (some 40)⟩] }

/-- C5 witness: on the `[30, missing, 40]` table, `latest_value`
returns the chronologically last non-missing entry `(40, t=2)`, and
the decomposition produced by `latest_value_spec` is concrete. -/
theorem latest_value_spec_witness :
    latest_value cDf4 1 = (some 40, some 2) ∧
    ∃ l₁ r l₂, cDf4.rows = l₁ ++ r :: l₂ ∧ r.fields 1 = some 40 ∧ r.ts = 2 ∧
      ∀ x ∈ l₂, x.fields 1 = none :=
  ⟨rfl, (latest_value_spec cDf4 1).2 40 2 rfl⟩

/-! ## C2: sourcing of the trend model -/

theorem latest_value_fst (df : Table) (field : Fin 8) :
    (latest_value df field).1
      = if ¬ df.rows.isEmpty ∧ df.cols field then
          (df.rows.filterMap fun r => r.fields field).getLast?
        else none := by
  by_cases hcond : df.rows.isEmpty ∨ ¬ df.cols field
  · have hneg : ¬ (¬ df.rows.isEmpty ∧ (df.cols field : Prop)) := by tauto
    unfold latest_value
    rw [if_pos hcond, if_neg hneg]
  · have hpos : ¬ df.rows.isEmpty ∧ (df.cols field : Prop) := by tauto
    unfold latest_value
    rw [if_neg hcond, if_pos hpos, getLast?_filterMap_fields]
    cases hlast : (df.rows.filter fun r => (r.fields field).isSome).getLast? with
    | none => rfl
    | some r => rfl

/-- C2: the trend model is `(m, b)` where `m` is the latest
non-missing `field5` value and `b` the latest non-missing `field6`
value of the environmental table, and it degenerates to
`(None, None)` as soon as either latest value is missing. -/
theorem trend_model_sourcing (df : Table) :
    (∀ mv bv, (latest_value df slopeField).1 = some mv →
        (latest_value df interceptField).1 = some bv →
        latest_lin_params df = (some mv, some bv)) ∧
    ((latest_value df slopeField).1 = none ∨
        (latest_value df interceptField).1 = none →
      latest_lin_params df = (none, none)) := by
  have hm := latest_value_fst df slopeField
  have hb := latest_value_fst df interceptField
  constructor
  · intro mv bv h1 h2
    rw [hm] at h1
    rw [hb] at h2
    unfold latest_lin_params
    rw [h1, h2]
    simp
  · intro h
    unfold latest_lin_params
    rcases h with h | h
    · rw [hm] at h
      rw [h]
      simp
    · rw [hb] at h
      rw [h]
      simp

/-- Field contents of the environmental witness table: `field1` a
temperature, `field5` the slope `1/2`, `field6` the intercept `20`. -/
def cFields (temp : ℚ) : Fin 8 → Option ℚ := fun i =>
  if i = tempField then some temp
  else if i = slopeField then some (1/2)
  else if i = interceptField then some 20
  else none

/-- A concrete environmental table: five readings ten minutes apart
(one per 10-minute bucket), slope and intercept fields populated. -/
def cDfEnv : Table :=
  { cols := fun i => decide (i = tempField ∨ i = slopeField ∨ i = interceptField)
    rows := [⟨5, cFields 22⟩, ⟨15, cFields 23⟩, ⟨25, cFields 24⟩,
             ⟨35, cFields 25⟩, ⟨45, cFields 26⟩] }

/-- C2 witness: on the concrete environmental table the latest
`field5`/`field6` values are `1/2` and `20`, and `latest_lin_params`
returns exactly that pair. -/
theorem trend_model_sourcing_witness :
    (latest_value cDfEnv slopeField).1 = some (1/2) ∧
    (latest_value cDfEnv interceptField).1 = some 20 ∧
    latest_lin_params cDfEnv = (some (1/2), some 20) :=
  ⟨rfl, rfl, (trend_model_sourcing cDfEnv).1 (1/2) 20 rfl rfl⟩

/-! ## C7: threshold classification -/

/-- C7: the card classifier is three-way: missing value → the grey
no-data colour; present value strictly outside the metric's inclusive
band → red; present value inside → grey. The band test itself is
inclusive and symmetric: both bounds are in range, and any positive
excursion `ε` beyond either bound is out of range. -/
theorem threshold_classification (k : MetricKey) (ε : ℚ) (hε : 0 < ε) :
    _bg_for_main k none = "#3F4F61" ∧
    (∀ x : ℚ, (LIMITS_MAIN k).1 ≤ x → x ≤ (LIMITS_MAIN k).2 →
      _bg_for_main k (some x) = "#3F4F61") ∧
    (∀ x : ℚ, (x < (LIMITS_MAIN k).1 ∨ (LIMITS_MAIN k).2 < x) →
      _bg_for_main k (some x) = "red") ∧
    _in_range (some (LIMITS_MAIN k).1) (LIMITS_MAIN k) = true ∧
    _in_range (some (LIMITS_MAIN k).2) (LIMITS_MAIN k) = true ∧
    _in_range (some ((LIMITS_MAIN k).1 - ε)) (LIMITS_MAIN k) = false ∧
    _in_range (some ((LIMITS_MAIN k).2 + ε)) (LIMITS_MAIN k) = false := by
  have hlohi : (LIMITS_MAIN k).1 ≤ (LIMITS_MAIN k).2 := by
    cases k <;> norm_num [LIMITS_MAIN]
  refine ⟨rfl, ?_, ?_, ?_, ?_, ?_, ?_⟩
  · intro x h1 h2
    simp [_bg_for_main, _in_range, h1, h2]
  · intro x hx
    rcases hx with hx | hx
    · have h1 : ¬ ((LIMITS_MAIN k).1 ≤ x) := not_le.mpr hx
      simp [_bg_for_main, _in_range, h1]
    · have h2 : ¬ (x ≤ (LIMITS_MAIN k).2) := not_le.mpr hx
      simp [_bg_for_main, _in_range, h2]
  · simp [_in_range, hlohi]
  · simp [_in_range, hlohi]
  · have h1 : ¬ ((LIMITS_MAIN k).1 ≤ (LIMITS_MAIN k).1 - ε) := by linarith
    simp [_in_range, h1]
  · have h2 : ¬ ((LIMITS_MAIN k).2 + ε ≤ (LIMITS_MAIN k).2) := by linarith
    simp [_in_range, h2]

/-- C7 witness: for the air-temperature band `[20, 30]` and `ε = 1`,
both bounds are in range, `21` is out below and `31` out above, and
the spec's scenario `classify("air_temp", 35) = outOfRange` renders
red. -/
theorem threshold_classification_witness :
    (0 : ℚ) < 1 ∧
    _in_range (some (LIMITS_MAIN MetricKey.air_temp).1)
      (LIMITS_MAIN MetricKey.air_temp) = true ∧
    _in_range (some (LIMITS_MAIN MetricKey.air_temp).2)
      (LIMITS_MAIN MetricKey.air_temp) = true ∧
    _in_range (some ((LIMITS_MAIN MetricKey.air_temp).1 - 1))
      (LIMITS_MAIN MetricKey.air_temp) = false ∧
    _in_range (some ((LIMITS_MAIN MetricKey.air_temp).2 + 1))
      (LIMITS_MAIN MetricKey.air_temp) = false ∧
    _bg_for_main MetricKey.air_temp (some 35) = "red" := by
  have h := threshold_classification MetricKey.air_temp 1 (by norm_num)
  exact ⟨by norm_num, h.2.2.2.1, h.2.2.2.2.1, h.2.2.2.2.2.1, h.2.2.2.2.2.2,
    h.2.2.1 35 (Or.inr (by norm_num [LIMITS_MAIN]))⟩

/-! ## C9: fetch query modes -/

/-- C9: the request built by the feed client uses exactly one query
mode — `results = max_points` with no date bounds in latest-N mode,
or inclusive `start`/`end` at `00:00:00`/`23:59:59` of the given
dates with no results count in range mode — and omits the API key
when none is supplied. The app always calls with
`max_points = MAX_POINTS`, so the results count never exceeds the
point cap. -/
theorem fetch_query_modes (tz : String) (use_range : Bool) (sd ed : String)
    (rk : Option String) :
    (use_range = false →
      (fetch_params tz use_range sd ed MAX_POINTS rk).results = some MAX_POINTS ∧
      (fetch_params tz use_range sd ed MAX_POINTS rk).start = none ∧
      (fetch_params tz use_range sd ed MAX_POINTS rk).stop = none) ∧
    (use_range = true →
      (fetch_params tz use_range sd ed MAX_POINTS rk).start
          = some (sd ++ " 00:00:00") ∧
      (fetch_params tz use_range sd ed MAX_POINTS rk).stop
          = some (ed ++ " 23:59:59") ∧
      (fetch_params tz use_range sd ed MAX_POINTS rk).results = none) ∧
    (∀ n, (fetch_params tz use_range sd ed MAX_POINTS rk).results = some n →
      n ≤ MAX_POINTS) ∧
    (rk = none → (fetch_params tz use_range sd ed MAX_POINTS rk).api_key = none) := by
  refine ⟨?_, ?_, ?_, ?_⟩
  · intro h
    subst h
    exact ⟨rfl, rfl, rfl⟩
  · intro h
    subst h
    exact ⟨rfl, rfl, rfl⟩
  · intro n hn
    cases use_range
    · simp [fetch_params] at hn
      omega
    · simp [fetch_params] at hn
  · intro h
    subst h
    cases use_range <;> rfl

/-- C9 witness: a concrete latest-N request with no key carries the
capped results count, no date bounds and no API key, and a concrete
date-range request carries the two inclusive day bounds. -/
theorem fetch_query_modes_witness :
    (fetch_params "America/Monterrey" false "2025-10-11" "2025-10-12"
        MAX_POINTS none).results = some MAX_POINTS ∧
    (fetch_params "America/Monterrey" false "2025-10-11" "2025-10-12"
        MAX_POINTS none).start = none ∧
    (fetch_params "America/Monterrey" false "2025-10-11" "2025-10-12"
        MAX_POINTS none).stop = none ∧
    (fetch_params "America/Monterrey" false "2025-10-11" "2025-10-12"
        MAX_POINTS none).api_key = none ∧
    (fetch_params "America/Monterrey" true "2025-10-11" "2025-10-12"
        MAX_POINTS none).start = some ("2025-10-11" ++ " 00:00:00") ∧
    (fetch_params "America/Monterrey" true "2025-10-11" "2025-10-12"
        MAX_POINTS none).stop = some ("2025-10-12" ++ " 23:59:59") := by
  have h1 := fetch_query_modes "America/Monterrey" false "2025-10-11" "2025-10-12" none
  have h2 := fetch_query_modes "America/Monterrey" true "2025-10-11" "2025-10-12" none
  exact ⟨(h1.1 rfl).1, (h1.1 rfl).2.1, (h1.1 rfl).2.2, h1.2.2.2 rfl,
    (h2.2.1 rfl).1, (h2.2.1 rfl).2.1⟩

/-! ## C10: label resolution -/

theorem collapseWS_all_space (l : List Char) (hne : l ≠ [])
    (h : ∀ c ∈ l, isPySpace c = true) : collapseWS l = [' '] := by
  induction l with
  | nil => exact absurd rfl hne
  | cons c t ih =>
    cases t with
    | nil => simp [collapseWS, h c (by simp)]
    | cons d u =>
      have hc := h c (by simp)
      have hd := h d (by simp)
      simp only [collapseWS, hc, hd, Bool.and_self, if_pos]
      exact ih (by simp) fun x hx => h x (by simp [hx])

theorem clean_all_space (s : String) (h : ∀ c ∈ s.data, isPySpace c = true) :
    _clean s = "" := by
  by_cases hs : s = ""
  · simp [_clean, hs]
  · have hne : s.data ≠ [] := by
      intro hd
      apply hs
      cases s with
      | mk l =>
        simp only [String.data] at hd
        rw [hd]
    rw [_clean, if_neg hs, collapseWS_all_space s.data hne h]
    rfl

/-- C10: label resolution never yields an empty display name; a
missing or whitespace-only metadata label falls back to the canonical
slot identifier `field(i+1)`, and a label that cleans to something
non-empty resolves to exactly its trimmed, whitespace-collapsed
form. -/
theorem label_resolution (meta : String → Option String) (i : Fin 8) :
    (label_map_from_meta meta i ≠ "") ∧
    (meta ("field" ++ toString (i.val + 1)) = none →
      label_map_from_meta meta i = "field" ++ toString (i.val + 1)) ∧
    (∀ lab, meta ("field" ++ toString (i.val + 1)) = some lab →
      (∀ c ∈ lab.data, isPySpace c = true) →
      label_map_from_meta meta i = "field" ++ toString (i.val + 1)) ∧
    (∀ lab, meta ("field" ++ toString (i.val + 1)) = some lab →
      _clean lab ≠ "" →
      label_map_from_meta meta i = _clean lab) := by
  have hkey : ("field" ++ toString (i.val + 1)) ≠ "" := by
    intro h
    have hlen := congrArg String.length h
    rw [String.length_append] at hlen
    have h5 : ("field" : String).length = 5 := rfl
    rw [h5] at hlen
    have h0 : ("" : String).length = 0 := rfl
    rw [h0] at hlen
    omega
  refine ⟨?_, ?_, ?_, ?_⟩
  · by_cases hn : _clean ((meta ("field" ++ toString (i.val + 1))).getD "") = ""
    · simpa [label_map_from_meta, hn] using hkey
    · simp [label_map_from_meta, hn]
  · intro h
    simp [label_map_from_meta, h, _clean]
  · intro lab hlab hws
    simp [label_map_from_meta, hlab, clean_all_space lab hws]
  · intro lab hlab hne
    simp [label_map_from_meta, hlab, hne]

/-- The metadata of the spec's label scenario: `field4` has an empty
label, everything else is absent. -/
def meta4 : String → Option String := fun k =>
  if k = "field4" then some "" else none

/-- C10 witness: with an empty metadata label for `field4`, the
resolver returns the canonical name `"field4"`. -/
theorem label_resolution_witness :
    meta4 ("field" ++ toString ((3 : Fin 8).val + 1)) = some "" ∧
    label_map_from_meta meta4 3 = "field4" := by
  refine ⟨rfl, ?_⟩
  have h := (label_resolution meta4 3).2.2.1 "" rfl (by intro c hc; simp at hc)
  exact h.trans rfl

/-! ## C4: mean resampling -/

/-- The readings contributing to the bucket labelled `lab`: the
non-missing values of column `field` whose timestamp lies in the
half-open interval `[lab - minutes, lab)` — i.e. `lab` is the
bucket's closing (right) boundary. -/
def bucketContribs (df : Table) (field : Fin 8) (minutes : ℕ) (lab : ℤ) : List ℚ :=
  df.rows.filterMap fun r =>
    if lab - (minutes : ℤ) ≤ r.ts ∧ r.ts < lab then r.fields field else none

theorem ediv_eq_iff_interval (t k : ℤ) (N : ℕ) (hN : 0 < N) :
    t / (N : ℤ) = k ↔ (k + 1) * (N : ℤ) - (N : ℤ) ≤ t ∧ t < (k + 1) * (N : ℤ) := by
  have hN' : (0 : ℤ) < (N : ℤ) := by exact_mod_cast hN
  have he : (k + 1) * (N : ℤ) - (N : ℤ) = k * (N : ℤ) := by ring
  constructor
  · intro h
    constructor
    · rw [he]
      exact (Int.le_ediv_iff_mul_le hN').mp (le_of_eq h.symm)
    · refine (Int.ediv_lt_iff_lt_mul hN').mp ?_
      rw [h]
      exact lt_add_one k
  · rintro ⟨h1, h2⟩
    rw [he] at h1
    have hle : k ≤ t / (N : ℤ) := (Int.le_ediv_iff_mul_le hN').mpr h1
    have hlt : t / (N : ℤ) < k + 1 := (Int.ediv_lt_iff_lt_mul hN').mpr h2
    omega

theorem bucketVals_eq_contribs (df : Table) (field : Fin 8) (minutes : ℕ)
    (hm : 0 < minutes) (k : ℤ) :
    bucketVals df field minutes k
      = bucketContribs df field minutes ((k + 1) * (minutes : ℤ)) := by
  unfold bucketVals bucketContribs
  refine List.filterMap_congr fun r _ => ?_
  by_cases h : r.ts / (minutes : ℤ) = k
  · rw [if_pos h, if_pos ((ediv_eq_iff_interval r.ts k minutes hm).mp h)]
  · rw [if_neg h,
      if_neg fun hc => h ((ediv_eq_iff_interval r.ts k minutes hm).mpr hc)]

/-- C4: every bucket of the resampled series is labelled by its
closing boundary — its contributing readings are exactly the
non-missing values with timestamps in `[label - minutes, label)` —
its value is missing precisely when no reading contributes (an empty
bucket is never coerced to `0` or any other number), and a present
value is the arithmetic mean of the contributing readings. -/
theorem resample_bucket_spec (df : Table) (field : Fin 8) (minutes : ℕ)
    (hm : 0 < minutes) :
    ∀ lab ov, (lab, ov) ∈ resample_series df field minutes →
      (ov = none ↔ bucketContribs df field minutes lab = []) ∧
      (∀ v, ov = some v →
        bucketContribs df field minutes lab ≠ [] ∧
        v = (bucketContribs df field minutes lab).sum
              / ((bucketContribs df field minutes lab).length : ℚ)) := by
  intro lab ov hmem
  unfold resample_series at hmem
  by_cases hc : df.rows.isEmpty ∨ ¬ df.cols field
  · rw [if_pos hc] at hmem
    simp at hmem
  · rw [if_neg hc] at hmem
    simp only [List.mem_map, List.mem_range] at hmem
    obtain ⟨j, _, heq⟩ := hmem
    have hlab : ((df.rows.map fun r => r.ts / (minutes : ℤ)).foldl min
        (df.rows.map fun r => r.ts / (minutes : ℤ)).headI + (j : ℤ) + 1)
          * (minutes : ℤ) = lab := congrArg Prod.fst heq
    have hov : bucketMean df field minutes
        ((df.rows.map fun r => r.ts / (minutes : ℤ)).foldl min
          (df.rows.map fun r => r.ts / (minutes : ℤ)).headI + (j : ℤ)) = ov :=
      congrArg Prod.snd heq
    set k := (df.rows.map fun r => r.ts / (minutes : ℤ)).foldl min
      (df.rows.map fun r => r.ts / (minutes : ℤ)).headI + (j : ℤ) with hk
    have hvals := bucketVals_eq_contribs df field minutes hm k
    rw [← hlab, ← hov]
    unfold bucketMean
    rw [hvals]
    by_cases he : bucketContribs df field minutes ((k + 1) * (minutes : ℤ)) = []
    · simp [he]
    · have ht : ¬ ((bucketContribs df field minutes
          ((k + 1) * (minutes : ℤ))).isEmpty = true) := by
        simp [List.isEmpty_iff, he]
      rw [if_neg ht]
      constructor
      · simp [he]
      · intro v hv
        exact ⟨he, (Option.some.inj hv).symm⟩

/-- C4 witness: on the spec's scenario table (`field2` readings
`[30, missing, 40]` one minute apart, 2-minute buckets) the bucket
closing at `t = 2` is present with mean `30`, and its contributor
list is the singleton mean's data — the missing reading zeroes
nothing. -/
theorem resample_bucket_spec_witness :
    0 < 2 ∧
    ((2 : ℤ), some (30 : ℚ)) ∈ resample_series cDf4 1 2 ∧
    bucketContribs cDf4 1 2 2 ≠ [] ∧
    (30 : ℚ) = (bucketContribs cDf4 1 2 2).sum
              / ((bucketContribs cDf4 1 2 2).length : ℚ) := by
  have hr : resample_series cDf4 1 2 = [(2, some 30), (4, some 40)] := by
    have hrange : List.range (Int.toNat 2) = [0, 1] := rfl
    norm_num [resample_series, bucketMean, bucketVals, cDf4, c4Fields,
      List.filterMap, hrange]
  have hmem : ((2 : ℤ), some (30 : ℚ)) ∈ resample_series cDf4 1 2 := by
    rw [hr]
    simp
  have h := resample_bucket_spec cDf4 1 2 (by norm_num) 2 (some 30) hmem
  exact ⟨by norm_num, hmem, (h.2 30 rfl).1, (h.2 30 rfl).2⟩

/-! ## C6 and C1: the trend projection -/

theorem headI_eq_get {α : Type} [Inhabited α] (l : List α) (h : 0 < l.length) :
    l.headI = l.get ⟨0, h⟩ := by
  cases l
  · simp at h
  · rfl

/-- C6: each projected point at integer step `x` has trend value
`m*x + b` (so the first value is the intercept `b`), and its
timestamp is the anchor window's first timestamp plus `x` times the
inferred step — the gap between the window's first two timestamps,
falling back to the bucket width for a window of fewer than two
points (`stepOf`). -/
theorem trend_pointwise (df : Table) (res_min : ℕ) (m b : ℚ)
    (yhat : List ℚ) (idx : List ℤ)
    (hmb : latest_lin_params df = (some m, some b))
    (hp : trendProjection df res_min = some (yhat, idx)) :
    (∀ i (h : i < yhat.length), yhat.get ⟨i, h⟩ = m * (i : ℚ) + b) ∧
    yhat.headI = b ∧
    (∀ i (h : i < idx.length),
      idx.get ⟨i, h⟩ = (anchorIdx df res_min).headI + (i : ℤ) * stepOf df res_min) ∧
    idx.headI = (anchorIdx df res_min).headI := by
  unfold trendProjection at hp
  rw [hmb] at hp
  dsimp only at hp
  by_cases hs : (workingSeries df res_min).isEmpty
  · rw [if_pos hs] at hp
    exact absurd hp (by simp)
  · rw [if_neg hs] at hp
    have hpair := Option.some.inj hp
    have hy : yhat = (List.range (min 30 (workingSeries df res_min).length + 100)).map
        fun xi : ℕ => m * (xi : ℚ) + b := (congrArg Prod.fst hpair).symm
    have hi : idx = (List.range ((List.range
          (min 30 (workingSeries df res_min).length + 100)).length)).map
        fun i : ℕ => (anchorIdx df res_min).headI + (i : ℤ) * stepOf df res_min :=
      (congrArg Prod.snd hpair).symm
    subst hy hi
    have hylen : 0 < ((List.range (min 30 (workingSeries df res_min).length + 100)).map
        fun xi : ℕ => m * (xi : ℚ) + b).length := by
      simp
    refine ⟨?_, ?_, ?_, ?_⟩
    · intro i h
      simp [List.get_eq_getElem, List.getElem_map, List.getElem_range]
    · rw [headI_eq_get _ hylen]
      simp [List.get_eq_getElem, List.getElem_map, List.getElem_range]
    · intro i h
      simp [List.get_eq_getElem, List.getElem_map, List.getElem_range]
    · have hilen : 0 < ((List.range ((List.range
          (min 30 (workingSeries df res_min).length + 100)).length)).map
            fun i : ℕ => (anchorIdx df res_min).headI + (i : ℤ) * stepOf df res_min).length := by
        simp
      rw [headI_eq_get _ hilen]
      simp [List.get_eq_getElem, List.getElem_map, List.getElem_range]

/-- The concrete trend projection of the five-point environmental
table at 10-minute resampling. -/
def cTrend : List ℚ × List ℤ := (trendProjection cDfEnv 10).getD ([], [])

/-- C6 witness: on the concrete table the model is `(1/2, 20)`, the
projection exists, its first value is the intercept `20` and its
first timestamp is the anchor window's first timestamp. -/
theorem trend_pointwise_witness :
    latest_lin_params cDfEnv = (some (1/2), some 20) ∧
    trendProjection cDfEnv 10 = some (cTrend.1, cTrend.2) ∧
    cTrend.1.headI = 20 ∧
    cTrend.2.headI = (anchorIdx cDfEnv 10).headI := by
  have h := trend_pointwise cDfEnv 10 (1/2) 20 cTrend.1 cTrend.2 rfl rfl
  exact ⟨rfl, rfl, h.2.1, h.2.2.2⟩

/-- C1 counterexample: on an environmental table whose resampled
temperature series has 5 points (model present, `m = 1/2`, `b = 20`),
the trend projection has `min(30, 5) + 100 = 105` output points, not
`windowSize + futureSteps = 130`. -/
theorem trend_length_cex :
    latest_lin_params cDfEnv = (some (1/2), some 20) ∧
    (workingSeries cDfEnv 10).length = 5 ∧
    (trendProjection cDfEnv 10).map (fun p => p.1.length) = some 105 ∧
    (105 : ℕ) ≠ 130 := by
  refine ⟨rfl, rfl, rfl, by norm_num⟩

/-- C1 (amended): the projection — when produced — has exactly
`min(windowSize, series length) + futureSteps` points on both axes
(which is `130` exactly when the series has at least `30` points),
and the projected axis starts at the anchor window's first
timestamp. -/
theorem trend_output_length (df : Table) (res_min : ℕ)
    (yhat : List ℚ) (idx : List ℤ)
    (hp : trendProjection df res_min = some (yhat, idx)) :
    yhat.length = min 30 (workingSeries df res_min).length + 100 ∧
    idx.length = min 30 (workingSeries df res_min).length + 100 ∧
    (30 ≤ (workingSeries df res_min).length → yhat.length = 130) ∧
    idx.headI = (anchorIdx df res_min).headI := by
  unfold trendProjection at hp
  cases hmb : latest_lin_params df with
  | mk mo bo =>
    rw [hmb] at hp
    cases mo with
    | none => exact absurd hp (by simp)
    | some m =>
      cases bo with
      | none => exact absurd hp (by simp)
      | some b =>
        dsimp only at hp
        by_cases hs : (workingSeries df res_min).isEmpty
        · rw [if_pos hs] at hp
          exact absurd hp (by simp)
        · rw [if_neg hs] at hp
          have hpair := Option.some.inj hp
          have hy : yhat = (List.range (min 30 (workingSeries df res_min).length + 100)).map
              fun xi : ℕ => m * (xi : ℚ) + b := (congrArg Prod.fst hpair).symm
          have hi : idx = (List.range ((List.range
                (min 30 (workingSeries df res_min).length + 100)).length)).map
              fun i : ℕ => (anchorIdx df res_min).headI + (i : ℤ) * stepOf df res_min :=
            (congrArg Prod.snd hpair).symm
          subst hy hi
          refine ⟨by simp, by simp, ?_, ?_⟩
          · intro h30
            rw [List.length_map, List.length_range]
            omega
          · have hilen : 0 < ((List.range ((List.range
                (min 30 (workingSeries df res_min).length + 100)).length)).map
                  fun i : ℕ => (anchorIdx df res_min).headI + (i : ℤ) * stepOf df res_min).length := by
              simp
            rw [headI_eq_get _ hilen]
            simp [List.get_eq_getElem, List.getElem_map, List.getElem_range]

/-- C1 (amended) witness: on the five-point concrete table the
projection has `min(30, 5) + 100 = 105` points and starts at the
anchor window's first timestamp. -/
theorem trend_output_length_witness :
    trendProjection cDfEnv 10 = some (cTrend.1, cTrend.2) ∧
    cTrend.1.length = min 30 (workingSeries cDfEnv 10).length + 100 ∧
    cTrend.2.headI = (anchorIdx cDfEnv 10).headI := by
  have h := trend_output_length cDfEnv 10 cTrend.1 cTrend.2 rfl
  exact ⟨rfl, h.1, h.2.2.2⟩

end SGC
